import Mathlib

/-!
Shallow embedding of the `spmcq` single-producer multi-consumer ring buffer
(`src/lib.rs`) and proofs about its sequential semantics.

The Rust code guards each slot with a per-slot spinlock (`use_count`); in any
interleaving-free (sequential) execution every acquire/release pair leaves
`use_count` exactly as it found it, so the embedding keeps the field as inert
state and models the data path of `ring_buffer`, `Reader::read`,
`Reader::skip_ahead`, `Reader::clone` and `Writer::write` directly.  The
`u16` lap counters are modelled as `Nat` with explicit `% 2^16` wherever the
Rust code wraps.
-/

namespace Spmcq

/-- Modulus of the `u16` lap counters. -/
def U16MOD : Nat := 65536

/-- `u16::wrapping_add` for values below the modulus. -/
def wrapAdd (a b : Nat) : Nat := (a + b) % U16MOD

/-- `u16::wrapping_sub(1)` for values below the modulus. -/
def wrapSub1 (a : Nat) : Nat := (a + (U16MOD - 1)) % U16MOD

/-- One slot of the backing array (`struct Item` in `lib.rs`): the exclusion
token `use_count`, the lap counter stored at the last write, and the data. -/
structure Item (T : Type) where
  use_count : Int
  lap_count : Nat
  data : T
deriving DecidableEq

instance (T : Type) [Inhabited T] : Inhabited (Item T) := ⟨⟨0, 0, default⟩⟩

/-- The shared state of a ring buffer: the backing array of slots and the
shared atomic write cursor. -/
structure RingBuf (T : Type) where
  data : List (Item T)
  write_index : Nat
deriving DecidableEq

/-- The private state of a `Reader` handle. -/
structure Reader where
  read_index : Nat
  lap_count : Nat
deriving DecidableEq

/-- The private state of the `Writer` handle. -/
structure Writer where
  lap_count : Nat
deriving DecidableEq

/-- Result of `Reader::read` (`enum ReadResult` in `lib.rs`). -/
inductive ReadResult (T : Type) where
  | Ok : T → ReadResult T
  | Dropout : T → ReadResult T
  | Empty : ReadResult T
deriving DecidableEq

/-- `ring_buffer(capacity)` from `lib.rs`: `none` models the
`assert!(capacity >= 2)` panic; otherwise all slots start with token `0`,
lap `0` and the default value, the cursor starts at `0`, and both handles
start with private lap `1`. -/
def ring_buffer (T : Type) [Inhabited T] (capacity : Nat) :
    Option (RingBuf T × Reader × Writer) :=
  if capacity < 2 then none
  else some (⟨List.replicate capacity ⟨0, 0, default⟩, 0⟩, ⟨0, 1⟩, ⟨1⟩)

/-- The cursor-advance block at the end of `Reader::read` (`lib.rs` lines
228-233): step `read_index`; on wraparound reset it to `0` and bump the
private lap. -/
def Reader.advance {T : Type} (rb : RingBuf T) (r : Reader) : Reader :=
  if r.read_index + 1 = rb.data.length then ⟨0, wrapAdd r.lap_count 1⟩
  else ⟨r.read_index + 1, r.lap_count⟩

/-- `Reader::read` from `lib.rs`.  The slot's lap and value are copied out
under the (sequentially inert) slot lock, then classified against the
reader's private lap: one behind means `Empty` (no state change), equal means
`Ok` (advance), anything else means `Dropout` (resynchronize the private lap
to the slot's lap, then advance). -/
def Reader.read {T : Type} [Inhabited T] (rb : RingBuf T) (r : Reader) :
    ReadResult T × Reader :=
  let item := rb.data.getD r.read_index default
  if wrapAdd item.lap_count 1 = r.lap_count then
    (ReadResult.Empty, r)
  else if item.lap_count = r.lap_count then
    (ReadResult.Ok item.data, Reader.advance rb r)
  else
    (ReadResult.Dropout item.data, Reader.advance rb ⟨r.read_index, item.lap_count⟩)

/-- `Reader::skip_ahead` from `lib.rs`: jump to one before the shared write
cursor (wrapping to the last slot when the cursor is `0`) and decrement the
private lap. -/
def Reader.skip_ahead {T : Type} (rb : RingBuf T) (r : Reader) : Reader :=
  ⟨(if rb.write_index = 0 then rb.data.length else rb.write_index) - 1,
   wrapSub1 r.lap_count⟩

/-- `Clone for Reader` from `lib.rs`: a fresh handle with a copy of the two
private scalars. -/
def Reader.clone (r : Reader) : Reader := ⟨r.read_index, r.lap_count⟩

/-- `Writer::write` from `lib.rs`: store the value and the writer's private
lap into the slot named by the shared cursor, advance the cursor (wrapping,
and bumping the private lap on wraparound). -/
def Writer.write {T : Type} [Inhabited T] (rb : RingBuf T) (w : Writer)
    (value : T) : RingBuf T × Writer :=
  let index := rb.write_index
  let item := rb.data.getD index default
  let data := rb.data.set index { item with lap_count := w.lap_count, data := value }
  if index + 1 = rb.data.length then (⟨data, 0⟩, ⟨wrapAdd w.lap_count 1⟩)
  else (⟨data, index + 1⟩, w)

/-- Repeated `Reader::read` against a fixed buffer: the list of results of
`n` successive reads together with the final reader state. -/
def readIter {T : Type} [Inhabited T] (rb : RingBuf T) :
    Nat → Reader → List (ReadResult T) × Reader
  | 0, r => ([], r)
  | n + 1, r =>
    let p := Reader.read rb r
    let q := readIter rb n p.2
    (p.1 :: q.1, q.2)

/-- `n` successive `Writer::write` calls pushing `f start`, `f (start+1)`,
…, `f (start+n-1)` in order. -/
def writeFrom {T : Type} [Inhabited T] (f : Nat → T) :
    Nat → Nat → RingBuf T × Writer → RingBuf T × Writer
  | _, 0, s => s
  | k, n + 1, s => writeFrom f (k + 1) n (Writer.write s.1 s.2 (f k))

/-- Whole-system state: the shared buffer, the unique writer and the current
collection of reader handles. -/
structure Sys (T : Type) where
  buf : RingBuf T
  writer : Writer
  readers : List Reader

/-- One client operation on the system: a write, or a read / skip-ahead /
clone performed by the reader handle at a given position. -/
inductive Op (T : Type) where
  | write : T → Op T
  | read : Nat → Op T
  | skip : Nat → Op T
  | clone : Nat → Op T

/-- Sequential small-step semantics of one operation; an operation naming a
nonexistent reader handle is a no-op. -/
def Sys.step {T : Type} [Inhabited T] (s : Sys T) : Op T → Sys T
  | Op.write v =>
    let p := Writer.write s.buf s.writer v
    ⟨p.1, p.2, s.readers⟩
  | Op.read i =>
    match s.readers.get? i with
    | none => s
    | some r => ⟨s.buf, s.writer, s.readers.set i (Reader.read s.buf r).2⟩
  | Op.skip i =>
    match s.readers.get? i with
    | none => s
    | some r => ⟨s.buf, s.writer, s.readers.set i (Reader.skip_ahead s.buf r)⟩
  | Op.clone i =>
    match s.readers.get? i with
    | none => s
    | some r => ⟨s.buf, s.writer, s.readers ++ [Reader.clone r]⟩

/-- Run a finite sequence of operations. -/
def Sys.exec {T : Type} [Inhabited T] (s : Sys T) (ops : List (Op T)) : Sys T :=
  ops.foldl Sys.step s

/-- Cursor-range invariant: the backing array keeps its capacity, the shared
write cursor is in range, and every reader's private index is in range. -/
def SysInv {T : Type} (cap : Nat) (s : Sys T) : Prop :=
  s.buf.data.length = cap ∧ s.buf.write_index < cap ∧
    ∀ r ∈ s.readers, r.read_index < cap

lemma wrapAdd_one_ne (l : Nat) : wrapAdd l 1 ≠ l := by
  unfold wrapAdd U16MOD
  omega

lemma read_empty_of {T : Type} [Inhabited T] {rb : RingBuf T} {r : Reader}
    (h : wrapAdd (rb.data.getD r.read_index default).lap_count 1 = r.lap_count) :
    Reader.read rb r = (ReadResult.Empty, r) := by
  simp only [Reader.read]
  rw [if_pos h]

lemma read_ok_of {T : Type} [Inhabited T] {rb : RingBuf T} {r : Reader}
    (h1 : wrapAdd (rb.data.getD r.read_index default).lap_count 1 ≠ r.lap_count)
    (h2 : (rb.data.getD r.read_index default).lap_count = r.lap_count) :
    Reader.read rb r =
      (ReadResult.Ok (rb.data.getD r.read_index default).data,
        Reader.advance rb r) := by
  simp only [Reader.read]
  rw [if_neg h1, if_pos h2]

lemma read_dropout_of {T : Type} [Inhabited T] {rb : RingBuf T} {r : Reader}
    (h1 : wrapAdd (rb.data.getD r.read_index default).lap_count 1 ≠ r.lap_count)
    (h2 : (rb.data.getD r.read_index default).lap_count ≠ r.lap_count) :
    Reader.read rb r =
      (ReadResult.Dropout (rb.data.getD r.read_index default).data,
        Reader.advance rb
          ⟨r.read_index, (rb.data.getD r.read_index default).lap_count⟩) := by
  simp only [Reader.read]
  rw [if_neg h1, if_neg h2]

/-- C8: construction refuses every capacity below 2 (the Rust assertion
panic, modelled as `none`); for capacity ≥ 2 it yields the buffer whose
`capacity` slots all carry exclusion token 0, lap 0 and the default value,
with the shared cursor at 0, a reader with `read_index` 0 and private lap 1,
and a writer with private lap 1. -/
theorem ring_buffer_spec (T : Type) [Inhabited T] (capacity : Nat) :
    (capacity < 2 → ring_buffer T capacity = none)
    ∧ (2 ≤ capacity →
        ring_buffer T capacity =
          some (⟨List.replicate capacity ⟨0, 0, default⟩, 0⟩, ⟨0, 1⟩, ⟨1⟩)) := by
  constructor
  · intro h
    simp [ring_buffer, h]
  · intro h
    simp [ring_buffer, Nat.not_lt.mpr h]

/-- Witness for `ring_buffer_spec` at capacities 1 and 2. -/
theorem ring_buffer_spec_witness :
    ring_buffer Nat 1 = none
    ∧ ring_buffer Nat 2 =
        some (⟨List.replicate 2 ⟨0, 0, default⟩, 0⟩, ⟨0, 1⟩, ⟨1⟩) :=
  ⟨(ring_buffer_spec Nat 1).1 (by decide), (ring_buffer_spec Nat 2).2 (by decide)⟩

/-- C6: when the shared write cursor holds `c < capacity`, `skip_ahead` moves
the private `read_index` to `c - 1` (to `capacity - 1` when `c = 0`),
decrements the private lap by 1 wrapping mod 2^16, and (the reader having
exactly these two fields, and the buffer being untouched) changes nothing
else. -/
theorem skip_ahead_spec {T : Type} (rb : RingBuf T) (r : Reader)
    (hc : rb.write_index < rb.data.length) :
    (Reader.skip_ahead rb r).read_index =
      (if rb.write_index = 0 then rb.data.length - 1 else rb.write_index - 1)
    ∧ (Reader.skip_ahead rb r).lap_count = (r.lap_count + 65535) % 65536 := by
  unfold Reader.skip_ahead wrapSub1 U16MOD
  constructor
  · split <;> simp
  · rfl

/-- Witness for `skip_ahead_spec`: a two-slot buffer with cursor 1. -/
theorem skip_ahead_spec_witness :
    (RingBuf.mk [Item.mk 0 1 (10 : Nat), Item.mk 0 0 0] 1).write_index <
      (RingBuf.mk [Item.mk 0 1 (10 : Nat), Item.mk 0 0 0] 1).data.length
    ∧ ((Reader.skip_ahead (RingBuf.mk [Item.mk 0 1 (10 : Nat), Item.mk 0 0 0] 1)
          ⟨1, 1⟩).read_index =
        (if (RingBuf.mk [Item.mk 0 1 (10 : Nat), Item.mk 0 0 0] 1).write_index = 0
         then (RingBuf.mk [Item.mk 0 1 (10 : Nat), Item.mk 0 0 0] 1).data.length - 1
         else (RingBuf.mk [Item.mk 0 1 (10 : Nat), Item.mk 0 0 0] 1).write_index - 1)
       ∧ (Reader.skip_ahead (RingBuf.mk [Item.mk 0 1 (10 : Nat), Item.mk 0 0 0] 1)
            ⟨1, 1⟩).lap_count = (Reader.lap_count ⟨1, 1⟩ + 65535) % 65536) :=
  ⟨by decide, skip_ahead_spec (RingBuf.mk [Item.mk 0 1 (10 : Nat), Item.mk 0 0 0] 1)
    ⟨1, 1⟩ (by decide)⟩

/-- C1: `read` classifies by wraparound-aware lap comparison: `Empty` exactly
when the slot's stored lap plus one equals the reader's private lap mod 2^16;
`Ok` with the slot's stored value exactly when the laps are equal; in every
other case `Dropout` with the slot's stored value, the resulting reader state
being the cursor advance applied after the private lap is first set to the
slot's stored lap. -/
theorem read_classification {T : Type} [Inhabited T] (rb : RingBuf T)
    (r : Reader) (hr : r.read_index < rb.data.length) :
    ((Reader.read rb r).1 = ReadResult.Empty ↔
      ((rb.data.getD r.read_index default).lap_count + 1) % 65536 = r.lap_count)
    ∧ ((Reader.read rb r).1 =
          ReadResult.Ok (rb.data.getD r.read_index default).data ↔
        (rb.data.getD r.read_index default).lap_count = r.lap_count)
    ∧ (((rb.data.getD r.read_index default).lap_count + 1) % 65536 ≠ r.lap_count →
        (rb.data.getD r.read_index default).lap_count ≠ r.lap_count →
        (Reader.read rb r).1 =
            ReadResult.Dropout (rb.data.getD r.read_index default).data
          ∧ (Reader.read rb r).2 =
              Reader.advance rb
                ⟨r.read_index, (rb.data.getD r.read_index default).lap_count⟩) := by
  by_cases h1 :
    ((rb.data.getD r.read_index default).lap_count + 1) % 65536 = r.lap_count
  · have h1' : wrapAdd (rb.data.getD r.read_index default).lap_count 1 =
        r.lap_count := h1
    have h2 : (rb.data.getD r.read_index default).lap_count ≠ r.lap_count := by
      intro h2
      exact wrapAdd_one_ne r.lap_count (h2 ▸ h1')
    rw [read_empty_of h1']
    exact ⟨iff_of_true rfl h1, iff_of_false (by simp) h2,
      fun hcon _ => absurd h1 hcon⟩
  · have h1' : wrapAdd (rb.data.getD r.read_index default).lap_count 1 ≠
        r.lap_count := h1
    by_cases h2 : (rb.data.getD r.read_index default).lap_count = r.lap_count
    · rw [read_ok_of h1' h2]
      exact ⟨iff_of_false (by simp) h1, iff_of_true rfl h2,
        fun _ hcon => absurd h2 hcon⟩
    · rw [read_dropout_of h1' h2]
      exact ⟨iff_of_false (by simp) h1, iff_of_false (by simp) h2,
        fun _ _ => ⟨rfl, rfl⟩⟩

/-- Witness for `read_classification`: a two-slot buffer read in the `Ok`
configuration. -/
theorem read_classification_witness :
    (Reader.read_index ⟨0, 5⟩ <
      (RingBuf.mk [Item.mk 0 5 (10 : Nat), Item.mk 0 3 20] 0).data.length)
    ∧ (((Reader.read (RingBuf.mk [Item.mk 0 5 (10 : Nat), Item.mk 0 3 20] 0)
          ⟨0, 5⟩).1 = ReadResult.Empty ↔
        (((RingBuf.mk [Item.mk 0 5 (10 : Nat), Item.mk 0 3 20] 0).data.getD
            (Reader.read_index ⟨0, 5⟩) default).lap_count + 1) % 65536 =
          Reader.lap_count ⟨0, 5⟩)
      ∧ ((Reader.read (RingBuf.mk [Item.mk 0 5 (10 : Nat), Item.mk 0 3 20] 0)
            ⟨0, 5⟩).1 =
            ReadResult.Ok ((RingBuf.mk [Item.mk 0 5 (10 : Nat), Item.mk 0 3 20]
              0).data.getD (Reader.read_index ⟨0, 5⟩) default).data ↔
          ((RingBuf.mk [Item.mk 0 5 (10 : Nat), Item.mk 0 3 20] 0).data.getD
            (Reader.read_index ⟨0, 5⟩) default).lap_count =
            Reader.lap_count ⟨0, 5⟩)
      ∧ ((((RingBuf.mk [Item.mk 0 5 (10 : Nat), Item.mk 0 3 20] 0).data.getD
            (Reader.read_index ⟨0, 5⟩) default).lap_count + 1) % 65536 ≠
            Reader.lap_count ⟨0, 5⟩ →
          ((RingBuf.mk [Item.mk 0 5 (10 : Nat), Item.mk 0 3 20] 0).data.getD
            (Reader.read_index ⟨0, 5⟩) default).lap_count ≠
            Reader.lap_count ⟨0, 5⟩ →
          (Reader.read (RingBuf.mk [Item.mk 0 5 (10 : Nat), Item.mk 0 3 20] 0)
              ⟨0, 5⟩).1 =
              ReadResult.Dropout ((RingBuf.mk [Item.mk 0 5 (10 : Nat),
                Item.mk 0 3 20] 0).data.getD (Reader.read_index ⟨0, 5⟩)
                default).data
            ∧ (Reader.read (RingBuf.mk [Item.mk 0 5 (10 : Nat), Item.mk 0 3 20]
                0) ⟨0, 5⟩).2 =
                Reader.advance (RingBuf.mk [Item.mk 0 5 (10 : Nat),
                  Item.mk 0 3 20] 0)
                  ⟨Reader.read_index ⟨0, 5⟩,
                    ((RingBuf.mk [Item.mk 0 5 (10 : Nat), Item.mk 0 3 20]
                      0).data.getD (Reader.read_index ⟨0, 5⟩)
                      default).lap_count⟩)) :=
  ⟨by decide,
    read_classification (RingBuf.mk [Item.mk 0 5 (10 : Nat), Item.mk 0 3 20] 0)
      ⟨0, 5⟩ (by decide)⟩

/-- C7: `read` advances the private cursor exactly on the `Ok`/`Dropout`
paths: the new `read_index` is the old one plus 1, resetting to 0 when it
reaches capacity, in which case the private lap entering the advance (the
reader's lap, already resynchronized to the slot's lap on the `Dropout`
path) is additionally incremented by 1 mod 2^16; on `Empty` the reader is
returned exactly as it was. -/
theorem read_advance_frame {T : Type} [Inhabited T] (rb : RingBuf T)
    (r : Reader) (hr : r.read_index < rb.data.length) :
    ((Reader.read rb r).1 = ReadResult.Empty → (Reader.read rb r).2 = r)
    ∧ ((Reader.read rb r).1 ≠ ReadResult.Empty →
        (Reader.read rb r).2.read_index =
          (if r.read_index + 1 = rb.data.length then 0 else r.read_index + 1))
    ∧ ((Reader.read rb r).1 ≠ ReadResult.Empty →
        r.read_index + 1 = rb.data.length →
        (Reader.read rb r).2.lap_count =
          ((if (rb.data.getD r.read_index default).lap_count = r.lap_count
            then r.lap_count
            else (rb.data.getD r.read_index default).lap_count) + 1) % 65536)
    ∧ ((Reader.read rb r).1 ≠ ReadResult.Empty →
        r.read_index + 1 ≠ rb.data.length →
        (Reader.read rb r).2.lap_count =
          (if (rb.data.getD r.read_index default).lap_count = r.lap_count
           then r.lap_count
           else (rb.data.getD r.read_index default).lap_count)) := by
  by_cases h1 :
    wrapAdd (rb.data.getD r.read_index default).lap_count 1 = r.lap_count
  · rw [read_empty_of h1]
    exact ⟨fun _ => rfl, fun hcon => absurd rfl hcon,
      fun hcon _ => absurd rfl hcon, fun hcon _ => absurd rfl hcon⟩
  · by_cases h2 : (rb.data.getD r.read_index default).lap_count = r.lap_count
    · rw [read_ok_of h1 h2]
      refine ⟨fun hcon => absurd hcon (by simp), fun _ => ?_, fun _ hw => ?_,
        fun _ hw => ?_⟩
      · unfold Reader.advance
        split <;> rfl
      · rw [if_pos h2]
        simp only [Reader.advance, if_pos hw]
        rfl
      · rw [if_pos h2]
        simp only [Reader.advance, if_neg hw]
    · rw [read_dropout_of h1 h2]
      refine ⟨fun hcon => absurd hcon (by simp), fun _ => ?_, fun _ hw => ?_,
        fun _ hw => ?_⟩
      · unfold Reader.advance
        split <;> rfl
      · rw [if_neg h2]
        simp only [Reader.advance, if_pos hw]
        rfl
      · rw [if_neg h2]
        simp only [Reader.advance, if_neg hw]

/-- Witness for `read_advance_frame`: a two-slot buffer read at index 1 in
the `Ok` configuration, so the advance wraps. -/
theorem read_advance_frame_witness :
    (Reader.read_index ⟨1, 7⟩ <
      (RingBuf.mk [Item.mk 0 6 (4 : Nat), Item.mk 0 7 9] 0).data.length)
    ∧ (((Reader.read (RingBuf.mk [Item.mk 0 6 (4 : Nat), Item.mk 0 7 9] 0)
          ⟨1, 7⟩).1 = ReadResult.Empty →
        (Reader.read (RingBuf.mk [Item.mk 0 6 (4 : Nat), Item.mk 0 7 9] 0)
          ⟨1, 7⟩).2 = ⟨1, 7⟩)
      ∧ ((Reader.read (RingBuf.mk [Item.mk 0 6 (4 : Nat), Item.mk 0 7 9] 0)
            ⟨1, 7⟩).1 ≠ ReadResult.Empty →
          (Reader.read (RingBuf.mk [Item.mk 0 6 (4 : Nat), Item.mk 0 7 9] 0)
            ⟨1, 7⟩).2.read_index =
            (if Reader.read_index ⟨1, 7⟩ + 1 =
                (RingBuf.mk [Item.mk 0 6 (4 : Nat), Item.mk 0 7 9] 0).data.length
             then 0 else Reader.read_index ⟨1, 7⟩ + 1))
      ∧ ((Reader.read (RingBuf.mk [Item.mk 0 6 (4 : Nat), Item.mk 0 7 9] 0)
            ⟨1, 7⟩).1 ≠ ReadResult.Empty →
          Reader.read_index ⟨1, 7⟩ + 1 =
            (RingBuf.mk [Item.mk 0 6 (4 : Nat), Item.mk 0 7 9] 0).data.length →
          (Reader.read (RingBuf.mk [Item.mk 0 6 (4 : Nat), Item.mk 0 7 9] 0)
            ⟨1, 7⟩).2.lap_count =
            ((if ((RingBuf.mk [Item.mk 0 6 (4 : Nat), Item.mk 0 7 9]
                  0).data.getD (Reader.read_index ⟨1, 7⟩) default).lap_count =
                Reader.lap_count ⟨1, 7⟩
              then Reader.lap_count ⟨1, 7⟩
              else ((RingBuf.mk [Item.mk 0 6 (4 : Nat), Item.mk 0 7 9]
                  0).data.getD (Reader.read_index ⟨1, 7⟩)
                  default).lap_count) + 1) % 65536)
      ∧ ((Reader.read (RingBuf.mk [Item.mk 0 6 (4 : Nat), Item.mk 0 7 9] 0)
            ⟨1, 7⟩).1 ≠ ReadResult.Empty →
          Reader.read_index ⟨1, 7⟩ + 1 ≠
            (RingBuf.mk [Item.mk 0 6 (4 : Nat), Item.mk 0 7 9] 0).data.length →
          (Reader.read (RingBuf.mk [Item.mk 0 6 (4 : Nat), Item.mk 0 7 9] 0)
            ⟨1, 7⟩).2.lap_count =
            (if ((RingBuf.mk [Item.mk 0 6 (4 : Nat), Item.mk 0 7 9]
                0).data.getD (Reader.read_index ⟨1, 7⟩) default).lap_count =
                Reader.lap_count ⟨1, 7⟩
             then Reader.lap_count ⟨1, 7⟩
             else ((RingBuf.mk [Item.mk 0 6 (4 : Nat), Item.mk 0 7 9]
                0).data.getD (Reader.read_index ⟨1, 7⟩) default).lap_count))) :=
  ⟨by decide,
    read_advance_frame (RingBuf.mk [Item.mk 0 6 (4 : Nat), Item.mk 0 7 9] 0)
      ⟨1, 7⟩ (by decide)⟩

/-- C2: a reachable state in which `skip_ahead` does NOT force the next read
onto the `Dropout` path, contradicting the documented contract of
`Reader::skip_ahead`.  With capacity 2, write 10 and 20, read both (`Ok 10`
then `Ok 20`; the second advance wraps, leaving the reader at lap 2 while the
newest slot carries lap 1); calling `skip_ahead` then `read` now yields
`Ok 20`, not `Dropout`. -/
theorem skip_ahead_next_read_ok :
    ring_buffer Nat 2 =
      some (⟨[⟨0, 0, 0⟩, ⟨0, 0, 0⟩], 0⟩, ⟨0, 1⟩, ⟨1⟩)
    ∧ Writer.write ⟨[⟨0, 0, 0⟩, ⟨0, 0, 0⟩], 0⟩ ⟨1⟩ 10 =
        (⟨[⟨0, 1, 10⟩, ⟨0, 0, 0⟩], 1⟩, ⟨1⟩)
    ∧ Writer.write ⟨[⟨0, 1, 10⟩, ⟨0, 0, 0⟩], 1⟩ ⟨1⟩ 20 =
        (⟨[⟨0, 1, 10⟩, ⟨0, 1, 20⟩], 0⟩, ⟨2⟩)
    ∧ Reader.read ⟨[⟨0, 1, 10⟩, ⟨0, 1, 20⟩], 0⟩ ⟨0, 1⟩ =
        (ReadResult.Ok 10, ⟨1, 1⟩)
    ∧ Reader.read ⟨[⟨0, 1, 10⟩, ⟨0, 1, 20⟩], 0⟩ ⟨1, 1⟩ =
        (ReadResult.Ok 20, ⟨0, 2⟩)
    ∧ Reader.skip_ahead ⟨[⟨0, 1, 10⟩, ⟨0, 1, 20⟩], 0⟩ ⟨0, 2⟩ = ⟨1, 1⟩
    ∧ (Reader.read ⟨[⟨0, 1, 10⟩, ⟨0, 1, 20⟩], 0⟩
        (Reader.skip_ahead ⟨[⟨0, 1, 10⟩, ⟨0, 1, 20⟩], 0⟩ ⟨0, 2⟩)).1 =
        ReadResult.Ok 20 := by
  refine ⟨rfl, ?_, ?_, ?_, ?_, ?_, ?_⟩ <;> decide

/-- C10: on a freshly constructed buffer, `skip_ahead` followed by `read`
yields `Ok` with the element type's default value: the never-written slot at
index `capacity - 1` still holds lap 0, which equals the reader's
decremented private lap. -/
theorem skip_ahead_fresh_reads_ok (T : Type) [Inhabited T] (capacity : Nat)
    (h2 : 2 ≤ capacity) (rb : RingBuf T) (rd : Reader) (w : Writer)
    (hc : ring_buffer T capacity = some (rb, rd, w)) :
    (Reader.read rb (Reader.skip_ahead rb rd)).1 =
      ReadResult.Ok (default : T) := by
  rw [(ring_buffer_spec T capacity).2 h2] at hc
  simp only [Option.some.injEq, Prod.mk.injEq] at hc
  obtain ⟨hb, hrd, -⟩ := hc
  subst hb hrd
  have hskip : Reader.skip_ahead
      (⟨List.replicate capacity ⟨0, 0, default⟩, 0⟩ : RingBuf T) ⟨0, 1⟩ =
      ⟨capacity - 1, 0⟩ := by
    unfold Reader.skip_ahead wrapSub1 U16MOD
    simp
  rw [hskip]
  have hitem : (List.replicate capacity
      (⟨0, 0, default⟩ : Item T)).getD (capacity - 1) default =
      ⟨0, 0, default⟩ := by
    rw [List.getD_eq_getElem?_getD, List.getElem?_replicate,
      if_pos (by omega : capacity - 1 < capacity)]
    rfl
  have h1 : wrapAdd ((⟨List.replicate capacity ⟨0, 0, default⟩, 0⟩ :
      RingBuf T).data.getD (Reader.read_index ⟨capacity - 1, 0⟩)
      default).lap_count 1 ≠ Reader.lap_count ⟨capacity - 1, 0⟩ := by
    show wrapAdd ((List.replicate capacity (⟨0, 0, default⟩ : Item T)).getD
      (capacity - 1) default).lap_count 1 ≠ 0
    rw [hitem]
    show wrapAdd 0 1 ≠ 0
    decide
  have hok : ((⟨List.replicate capacity ⟨0, 0, default⟩, 0⟩ :
      RingBuf T).data.getD (Reader.read_index ⟨capacity - 1, 0⟩)
      default).lap_count = Reader.lap_count ⟨capacity - 1, 0⟩ := by
    show ((List.replicate capacity (⟨0, 0, default⟩ : Item T)).getD
      (capacity - 1) default).lap_count = 0
    rw [hitem]
  rw [read_ok_of h1 hok]
  show ReadResult.Ok ((List.replicate capacity
    (⟨0, 0, default⟩ : Item T)).getD (capacity - 1) default).data = _
  rw [hitem]

/-- Witness for `skip_ahead_fresh_reads_ok` at capacity 2. -/
theorem skip_ahead_fresh_reads_ok_witness :
    2 ≤ 2
    ∧ ring_buffer Nat 2 =
        some (⟨List.replicate 2 ⟨0, 0, default⟩, 0⟩, ⟨0, 1⟩, ⟨1⟩)
    ∧ (Reader.read (⟨List.replicate 2 ⟨0, 0, default⟩, 0⟩ : RingBuf Nat)
        (Reader.skip_ahead
          (⟨List.replicate 2 ⟨0, 0, default⟩, 0⟩ : RingBuf Nat) ⟨0, 1⟩)).1 =
        ReadResult.Ok (default : Nat) :=
  ⟨by decide, by decide,
    skip_ahead_fresh_reads_ok Nat 2 (by decide)
      ⟨List.replicate 2 ⟨0, 0, default⟩, 0⟩ ⟨0, 1⟩ ⟨1⟩ (by decide)⟩

lemma fresh_read_step (T : Type) [Inhabited T] (capacity : Nat)
    (h2 : 2 ≤ capacity) :
    Reader.read (⟨List.replicate capacity ⟨0, 0, default⟩, 0⟩ : RingBuf T)
      ⟨0, 1⟩ = (ReadResult.Empty, ⟨0, 1⟩) := by
  have hitem : (List.replicate capacity
      (⟨0, 0, default⟩ : Item T)).getD 0 default = ⟨0, 0, default⟩ := by
    rw [List.getD_eq_getElem?_getD, List.getElem?_replicate,
      if_pos (by omega : 0 < capacity)]
    rfl
  have h1 : wrapAdd ((⟨List.replicate capacity ⟨0, 0, default⟩, 0⟩ :
      RingBuf T).data.getD (Reader.read_index ⟨0, 1⟩) default).lap_count 1 =
      Reader.lap_count ⟨0, 1⟩ := by
    show wrapAdd ((List.replicate capacity
      (⟨0, 0, default⟩ : Item T)).getD 0 default).lap_count 1 = 1
    rw [hitem]
    show wrapAdd 0 1 = 1
    decide
  exact read_empty_of h1

/-- C4: on a freshly constructed buffer of any capacity ≥ 2, every number of
repeated `read` calls returns `Empty` while no `write` has occurred. -/
theorem fresh_reads_empty (T : Type) [Inhabited T] (capacity : Nat)
    (h2 : 2 ≤ capacity) (rb : RingBuf T) (rd : Reader) (w : Writer)
    (hc : ring_buffer T capacity = some (rb, rd, w)) (n : Nat) :
    (readIter rb n rd).1 = List.replicate n ReadResult.Empty := by
  rw [(ring_buffer_spec T capacity).2 h2] at hc
  simp only [Option.some.injEq, Prod.mk.injEq] at hc
  obtain ⟨hb, hrd, -⟩ := hc
  subst hb hrd
  induction n with
  | zero => rfl
  | succ n ih =>
    show (readIter _ (n + 1) _).1 = _
    unfold readIter
    rw [fresh_read_step T capacity h2]
    rw [List.replicate_succ]
    exact congrArg (ReadResult.Empty :: ·) ih

/-- Witness for `fresh_reads_empty`: three reads on a fresh capacity-2
buffer. -/
theorem fresh_reads_empty_witness :
    2 ≤ 2
    ∧ ring_buffer Nat 2 =
        some (⟨List.replicate 2 ⟨0, 0, default⟩, 0⟩, ⟨0, 1⟩, ⟨1⟩)
    ∧ (readIter (⟨List.replicate 2 ⟨0, 0, default⟩, 0⟩ : RingBuf Nat) 3
        ⟨0, 1⟩).1 = List.replicate 3 ReadResult.Empty :=
  ⟨by decide, by decide,
    fresh_reads_empty Nat 2 (by decide)
      ⟨List.replicate 2 ⟨0, 0, default⟩, 0⟩ ⟨0, 1⟩ ⟨1⟩ (by decide) 3⟩

/-- C3: with pre-call cursor `i` and private lap `L`, `write v` stores `v`
and `L` into slot `i` (leaving its exclusion token alone), sets the shared
cursor to `(i + 1) mod capacity`, increments the private lap by 1 mod 2^16
exactly when `i + 1 = capacity`, keeps the capacity, and leaves every slot
other than slot `i` unchanged. -/
theorem write_spec {T : Type} [Inhabited T] (rb : RingBuf T) (w : Writer)
    (v : T) (hi : rb.write_index < rb.data.length) :
    (Writer.write rb w v).1.data.getD rb.write_index default =
      ⟨(rb.data.getD rb.write_index default).use_count, w.lap_count, v⟩
    ∧ (Writer.write rb w v).1.write_index =
        (rb.write_index + 1) % rb.data.length
    ∧ (Writer.write rb w v).2.lap_count =
        (if rb.write_index + 1 = rb.data.length
         then (w.lap_count + 1) % 65536 else w.lap_count)
    ∧ (Writer.write rb w v).1.data.length = rb.data.length
    ∧ ∀ j, j ≠ rb.write_index →
        (Writer.write rb w v).1.data.getD j default = rb.data.getD j default := by
  have hset : ∀ (d : List (Item T)),
      (Writer.write rb w v).1.data =
        rb.data.set rb.write_index
          { rb.data.getD rb.write_index default with
            lap_count := w.lap_count, data := v } := by
    intro _
    simp only [Writer.write]
    split <;> rfl
  have hslot : (Writer.write rb w v).1.data.getD rb.write_index default =
      ⟨(rb.data.getD rb.write_index default).use_count, w.lap_count, v⟩ := by
    rw [hset []]
    rw [List.getD_eq_getElem?_getD, List.getElem?_set_self (by simpa using hi)]
    rfl
  refine ⟨hslot, ?_, ?_, ?_, ?_⟩
  · simp only [Writer.write]
    split
    · rename_i h
      rw [h, Nat.mod_self]
    · rename_i h
      have : rb.write_index + 1 < rb.data.length := by omega
      exact (Nat.mod_eq_of_lt this).symm
  · simp only [Writer.write]
    split <;> rfl
  · rw [hset []]
    exact List.length_set rb.data _ _
  · intro j hj
    rw [hset []]
    rw [List.getD_eq_getElem?_getD,
      List.getElem?_set_ne (fun h => hj h.symm),
      ← List.getD_eq_getElem?_getD]

/-- Witness for `write_spec`: write 7 into a two-slot buffer at cursor 1. -/
theorem write_spec_witness :
    (RingBuf.mk [Item.mk 0 1 (5 : Nat), Item.mk 0 0 0] 1).write_index <
      (RingBuf.mk [Item.mk 0 1 (5 : Nat), Item.mk 0 0 0] 1).data.length
    ∧ ((Writer.write (RingBuf.mk [Item.mk 0 1 (5 : Nat), Item.mk 0 0 0] 1)
          ⟨1⟩ 7).1.data.getD
          (RingBuf.mk [Item.mk 0 1 (5 : Nat), Item.mk 0 0 0] 1).write_index
          default =
        ⟨((RingBuf.mk [Item.mk 0 1 (5 : Nat), Item.mk 0 0 0] 1).data.getD
            (RingBuf.mk [Item.mk 0 1 (5 : Nat), Item.mk 0 0 0]
              1).write_index default).use_count,
          Writer.lap_count ⟨1⟩, 7⟩
      ∧ (Writer.write (RingBuf.mk [Item.mk 0 1 (5 : Nat), Item.mk 0 0 0] 1)
            ⟨1⟩ 7).1.write_index =
          ((RingBuf.mk [Item.mk 0 1 (5 : Nat), Item.mk 0 0 0]
            1).write_index + 1) %
            (RingBuf.mk [Item.mk 0 1 (5 : Nat), Item.mk 0 0 0] 1).data.length
      ∧ (Writer.write (RingBuf.mk [Item.mk 0 1 (5 : Nat), Item.mk 0 0 0] 1)
            ⟨1⟩ 7).2.lap_count =
          (if (RingBuf.mk [Item.mk 0 1 (5 : Nat), Item.mk 0 0 0]
              1).write_index + 1 =
              (RingBuf.mk [Item.mk 0 1 (5 : Nat), Item.mk 0 0 0]
                1).data.length
           then (Writer.lap_count ⟨1⟩ + 1) % 65536 else Writer.lap_count ⟨1⟩)
      ∧ (Writer.write (RingBuf.mk [Item.mk 0 1 (5 : Nat), Item.mk 0 0 0] 1)
            ⟨1⟩ 7).1.data.length =
          (RingBuf.mk [Item.mk 0 1 (5 : Nat), Item.mk 0 0 0] 1).data.length
      ∧ ∀ j, j ≠ (RingBuf.mk [Item.mk 0 1 (5 : Nat), Item.mk 0 0 0]
            1).write_index →
          (Writer.write (RingBuf.mk [Item.mk 0 1 (5 : Nat), Item.mk 0 0 0] 1)
            ⟨1⟩ 7).1.data.getD j default =
          (RingBuf.mk [Item.mk 0 1 (5 : Nat), Item.mk 0 0 0] 1).data.getD j
            default) :=
  ⟨by decide,
    write_spec (RingBuf.mk [Item.mk 0 1 (5 : Nat), Item.mk 0 0 0] 1) ⟨1⟩ 7
      (by decide)⟩

lemma write_state {T : Type} [Inhabited T] (rb : RingBuf T) (w : Writer)
    (v : T) :
    (Writer.write rb w v).1.data =
      rb.data.set rb.write_index
        { rb.data.getD rb.write_index default with
          lap_count := w.lap_count, data := v }
    ∧ (Writer.write rb w v).1.write_index =
        (if rb.write_index + 1 = rb.data.length then 0 else rb.write_index + 1)
    ∧ (Writer.write rb w v).2.lap_count =
        (if rb.write_index + 1 = rb.data.length
         then wrapAdd w.lap_count 1 else w.lap_count) := by
  refine ⟨?_, ?_, ?_⟩ <;> simp only [Writer.write] <;> split <;> rfl

lemma writeFrom_snoc {T : Type} [Inhabited T] (f : Nat → T) :
    ∀ (n k : Nat) (s : RingBuf T × Writer),
      writeFrom f k (n + 1) s =
        Writer.write (writeFrom f k n s).1 (writeFrom f k n s).2
          (f (k + n)) := by
  intro n
  induction n with
  | zero =>
    intro k s
    simp only [writeFrom]
    rfl
  | succ n ih =>
    intro k s
    show writeFrom f (k + 1) (n + 1) (Writer.write s.1 s.2 (f k)) = _
    rw [ih (k + 1) (Writer.write s.1 s.2 (f k))]
    rw [show k + 1 + n = k + (n + 1) by omega]
    rfl

lemma writeFrom_fill {T : Type} [Inhabited T] (f : Nat → T) (cap : Nat) :
    ∀ (n k : Nat) (s : RingBuf T × Writer),
      k + n ≤ cap → k < cap →
      s.1.data.length = cap → s.1.write_index = k → s.2.lap_count = 1 →
      (∀ j, j < cap → s.1.data.getD j default =
        if j < k then ⟨0, 1, f j⟩ else ⟨0, 0, default⟩) →
      ((writeFrom f k n s).1.data.length = cap
        ∧ (∀ j, j < cap → (writeFrom f k n s).1.data.getD j default =
            if j < k + n then ⟨0, 1, f j⟩ else ⟨0, 0, default⟩)
        ∧ (if k + n = cap
           then (writeFrom f k n s).1.write_index = 0
             ∧ (writeFrom f k n s).2.lap_count = 2
           else (writeFrom f k n s).1.write_index = k + n
             ∧ (writeFrom f k n s).2.lap_count = 1)) := by
  intro n
  induction n with
  | zero =>
    intro k s hkn hk hlen hwi hlap hslots
    simp only [writeFrom]
    rw [if_neg (by omega : ¬ k + 0 = cap)]
    exact ⟨hlen, fun j hj => hslots j hj, hwi, hlap⟩
  | succ n ih =>
    intro k s hkn hk hlen hwi hlap hslots
    obtain ⟨hd, hwi', hlap'⟩ := write_state s.1 s.2 (f k)
    have hold : s.1.data.getD k default = ⟨0, 0, default⟩ := by
      rw [hslots k hk]
      exact if_neg (by omega)
    have hnew : s.1.data.getD s.1.write_index default = ⟨0, 0, default⟩ := by
      rw [hwi]
      exact hold
    have hdata : (Writer.write s.1 s.2 (f k)).1.data =
        s.1.data.set k ⟨0, 1, f k⟩ := by
      rw [hd, hnew, hwi, hlap]
    have hlen2 : (Writer.write s.1 s.2 (f k)).1.data.length = cap := by
      rw [hdata, List.length_set, hlen]
    have hslots2 : ∀ j, j < cap →
        (Writer.write s.1 s.2 (f k)).1.data.getD j default =
          if j < k + 1 then ⟨0, 1, f j⟩ else ⟨0, 0, default⟩ := by
      intro j hj
      rw [hdata]
      by_cases hjk : j = k
      · subst hjk
        rw [List.getD_eq_getElem?_getD,
          List.getElem?_set_self (by omega : j < s.1.data.length),
          if_pos (by omega)]
        rfl
      · rw [List.getD_eq_getElem?_getD,
          List.getElem?_set_ne (fun h => hjk h.symm),
          ← List.getD_eq_getElem?_getD, hslots j hj]
        by_cases hjk2 : j < k
        · rw [if_pos hjk2, if_pos (by omega)]
        · rw [if_neg hjk2, if_neg (by omega)]
    show ((writeFrom f (k + 1) n (Writer.write s.1 s.2 (f k))).1.data.length = cap ∧ _)
    by_cases hwrap : k + 1 = cap
    · have hn0 : n = 0 := by omega
      subst hn0
      simp only [writeFrom]
      rw [if_pos (by omega : k + (0 + 1) = cap)]
      refine ⟨hlen2, ?_, ?_, ?_⟩
      · intro j hj
        rw [hslots2 j hj]
      · rw [hwi', hwi, hlen, if_pos hwrap]
      · rw [hlap', hwi, hlen, if_pos hwrap, hlap]
        rfl
    · have hwi2 : (Writer.write s.1 s.2 (f k)).1.write_index = k + 1 := by
        rw [hwi', hwi, hlen, if_neg hwrap]
      have hlap2 : (Writer.write s.1 s.2 (f k)).2.lap_count = 1 := by
        rw [hlap', hwi, hlen, if_neg hwrap, hlap]
      have := ih (k + 1) (Writer.write s.1 s.2 (f k))
        (by omega) (by omega) hlen2 hwi2 hlap2 hslots2
      rw [show k + 1 + n = k + (n + 1) by omega] at this
      exact this

/-- C5: from a fresh buffer of capacity `C ≥ 2`, writing the `C + 1` values
`f 0 … f C` and then reading once yields `Dropout (f C)` (the most recent
value), and the immediately following read yields `Empty`. -/
theorem overtake_dropout (T : Type) [Inhabited T] (capacity : Nat)
    (h2 : 2 ≤ capacity) (f : Nat → T) (rb : RingBuf T) (rd : Reader)
    (w : Writer) (hc : ring_buffer T capacity = some (rb, rd, w)) :
    (Reader.read (writeFrom f 0 (capacity + 1) (rb, w)).1 rd).1 =
      ReadResult.Dropout (f capacity)
    ∧ (Reader.read (writeFrom f 0 (capacity + 1) (rb, w)).1
        (Reader.read (writeFrom f 0 (capacity + 1) (rb, w)).1 rd).2).1 =
      ReadResult.Empty := by
  rw [(ring_buffer_spec T capacity).2 h2] at hc
  simp only [Option.some.injEq, Prod.mk.injEq] at hc
  obtain ⟨hb, hrd, hw⟩ := hc
  subst hb hrd hw
  have hfill := writeFrom_fill f capacity capacity 0
    (⟨List.replicate capacity ⟨0, 0, default⟩, 0⟩, ⟨1⟩)
    (by omega) (by omega) (by simp) rfl rfl
    (by
      intro j hj
      rw [if_neg (Nat.not_lt_zero j), List.getD_eq_getElem?_getD,
        List.getElem?_replicate, if_pos hj]
      rfl)
  obtain ⟨hTlen, hTslots, hTwrap⟩ := hfill
  rw [if_pos (by omega : 0 + capacity = capacity)] at hTwrap
  obtain ⟨hTwi, hTlap⟩ := hTwrap
  have hsnoc := writeFrom_snoc f capacity 0
    (⟨List.replicate capacity ⟨0, 0, default⟩, 0⟩, ⟨1⟩)
  rw [show 0 + capacity = capacity by omega] at hsnoc
  rw [hsnoc]
  obtain ⟨hd, -, -⟩ := write_state
    (writeFrom f 0 capacity
      (⟨List.replicate capacity ⟨0, 0, default⟩, 0⟩, ⟨1⟩)).1
    (writeFrom f 0 capacity
      (⟨List.replicate capacity ⟨0, 0, default⟩, 0⟩, ⟨1⟩)).2
    (f capacity)
  have ht0 : (writeFrom f 0 capacity
      (⟨List.replicate capacity ⟨0, 0, default⟩, 0⟩,
        ⟨1⟩)).1.data.getD 0 default = ⟨0, 1, f 0⟩ := by
    have := hTslots 0 (by omega)
    rw [if_pos (by omega : 0 < 0 + capacity)] at this
    exact this
  have hdB : (Writer.write
      (writeFrom f 0 capacity
        (⟨List.replicate capacity ⟨0, 0, default⟩, 0⟩, ⟨1⟩)).1
      (writeFrom f 0 capacity
        (⟨List.replicate capacity ⟨0, 0, default⟩, 0⟩, ⟨1⟩)).2
      (f capacity)).1.data =
      (writeFrom f 0 capacity
        (⟨List.replicate capacity ⟨0, 0, default⟩, 0⟩,
          ⟨1⟩)).1.data.set 0 ⟨0, 2, f capacity⟩ := by
    rw [hd, hTwi, ht0, hTlap]
  have hBlen : (Writer.write
      (writeFrom f 0 capacity
        (⟨List.replicate capacity ⟨0, 0, default⟩, 0⟩, ⟨1⟩)).1
      (writeFrom f 0 capacity
        (⟨List.replicate capacity ⟨0, 0, default⟩, 0⟩, ⟨1⟩)).2
      (f capacity)).1.data.length = capacity := by
    rw [hdB, List.length_set, hTlen]
  have hB0 : (Writer.write
      (writeFrom f 0 capacity
        (⟨List.replicate capacity ⟨0, 0, default⟩, 0⟩, ⟨1⟩)).1
      (writeFrom f 0 capacity
        (⟨List.replicate capacity ⟨0, 0, default⟩, 0⟩, ⟨1⟩)).2
      (f capacity)).1.data.getD 0 default = ⟨0, 2, f capacity⟩ := by
    rw [hdB, List.getD_eq_getElem?_getD,
      List.getElem?_set_self (by omega : 0 < (writeFrom f 0 capacity
        (⟨List.replicate capacity ⟨0, 0, default⟩, 0⟩,
          ⟨1⟩)).1.data.length)]
    rfl
  have hB1 : (Writer.write
      (writeFrom f 0 capacity
        (⟨List.replicate capacity ⟨0, 0, default⟩, 0⟩, ⟨1⟩)).1
      (writeFrom f 0 capacity
        (⟨List.replicate capacity ⟨0, 0, default⟩, 0⟩, ⟨1⟩)).2
      (f capacity)).1.data.getD 1 default = ⟨0, 1, f 1⟩ := by
    rw [hdB, List.getD_eq_getElem?_getD,
      List.getElem?_set_ne (by omega : (0 : Nat) ≠ 1),
      ← List.getD_eq_getElem?_getD]
    have := hTslots 1 (by omega)
    rw [if_pos (by omega : 1 < 0 + capacity)] at this
    exact this
  have hread1 : Reader.read
      (Writer.write
        (writeFrom f 0 capacity
          (⟨List.replicate capacity ⟨0, 0, default⟩, 0⟩, ⟨1⟩)).1
        (writeFrom f 0 capacity
          (⟨List.replicate capacity ⟨0, 0, default⟩, 0⟩, ⟨1⟩)).2
        (f capacity)).1 ⟨0, 1⟩ =
      (ReadResult.Dropout (f capacity), ⟨1, 2⟩) := by
    have h1 : wrapAdd ((Writer.write
        (writeFrom f 0 capacity
          (⟨List.replicate capacity ⟨0, 0, default⟩, 0⟩, ⟨1⟩)).1
        (writeFrom f 0 capacity
          (⟨List.replicate capacity ⟨0, 0, default⟩, 0⟩, ⟨1⟩)).2
        (f capacity)).1.data.getD
          (Reader.read_index ⟨0, 1⟩) default).lap_count 1 ≠
        Reader.lap_count ⟨0, 1⟩ := by
      show wrapAdd ((Writer.write _ _ _).1.data.getD 0 default).lap_count 1 ≠ 1
      rw [hB0]
      show wrapAdd 2 1 ≠ 1
      decide
    have h2' : ((Writer.write
        (writeFrom f 0 capacity
          (⟨List.replicate capacity ⟨0, 0, default⟩, 0⟩, ⟨1⟩)).1
        (writeFrom f 0 capacity
          (⟨List.replicate capacity ⟨0, 0, default⟩, 0⟩, ⟨1⟩)).2
        (f capacity)).1.data.getD
          (Reader.read_index ⟨0, 1⟩) default).lap_count ≠
        Reader.lap_count ⟨0, 1⟩ := by
      show ((Writer.write _ _ _).1.data.getD 0 default).lap_count ≠ 1
      rw [hB0]
      show 2 ≠ 1
      decide
    rw [read_dropout_of h1 h2']
    rw [show ((Writer.write
        (writeFrom f 0 capacity
          (⟨List.replicate capacity ⟨0, 0, default⟩, 0⟩, ⟨1⟩)).1
        (writeFrom f 0 capacity
          (⟨List.replicate capacity ⟨0, 0, default⟩, 0⟩, ⟨1⟩)).2
        (f capacity)).1.data.getD (Reader.read_index ⟨0, 1⟩) default) =
        ⟨0, 2, f capacity⟩ from hB0]
    show (ReadResult.Dropout (f capacity),
      Reader.advance _ ⟨0, 2⟩) = _
    unfold Reader.advance
    rw [hBlen, if_neg (by omega : ¬ 0 + 1 = capacity)]
  have hread2 : Reader.read
      (Writer.write
        (writeFrom f 0 capacity
          (⟨List.replicate capacity ⟨0, 0, default⟩, 0⟩, ⟨1⟩)).1
        (writeFrom f 0 capacity
          (⟨List.replicate capacity ⟨0, 0, default⟩, 0⟩, ⟨1⟩)).2
        (f capacity)).1 ⟨1, 2⟩ =
      (ReadResult.Empty, ⟨1, 2⟩) := by
    have h1 : wrapAdd ((Writer.write
        (writeFrom f 0 capacity
          (⟨List.replicate capacity ⟨0, 0, default⟩, 0⟩, ⟨1⟩)).1
        (writeFrom f 0 capacity
          (⟨List.replicate capacity ⟨0, 0, default⟩, 0⟩, ⟨1⟩)).2
        (f capacity)).1.data.getD
          (Reader.read_index ⟨1, 2⟩) default).lap_count 1 =
        Reader.lap_count ⟨1, 2⟩ := by
      show wrapAdd ((Writer.write _ _ _).1.data.getD 1 default).lap_count 1 = 2
      rw [hB1]
      show wrapAdd 1 1 = 2
      decide
    exact read_empty_of h1
  rw [hread1, hread2]
  exact ⟨rfl, rfl⟩

/-- Witness for `overtake_dropout` at capacity 2 with values `f = id`. -/
theorem overtake_dropout_witness :
    2 ≤ 2
    ∧ ring_buffer Nat 2 =
        some (⟨List.replicate 2 ⟨0, 0, default⟩, 0⟩, ⟨0, 1⟩, ⟨1⟩)
    ∧ ((Reader.read (writeFrom id 0 3
          ((⟨List.replicate 2 ⟨0, 0, default⟩, 0⟩ : RingBuf Nat), ⟨1⟩)).1
          ⟨0, 1⟩).1 = ReadResult.Dropout 2
      ∧ (Reader.read (writeFrom id 0 3
          ((⟨List.replicate 2 ⟨0, 0, default⟩, 0⟩ : RingBuf Nat), ⟨1⟩)).1
          (Reader.read (writeFrom id 0 3
            ((⟨List.replicate 2 ⟨0, 0, default⟩, 0⟩ : RingBuf Nat), ⟨1⟩)).1
            ⟨0, 1⟩).2).1 = ReadResult.Empty) :=
  ⟨by decide, by decide,
    overtake_dropout Nat 2 (by decide) id
      ⟨List.replicate 2 ⟨0, 0, default⟩, 0⟩ ⟨0, 1⟩ ⟨1⟩ (by decide)⟩

lemma advance_index_lt {T : Type} (rb : RingBuf T) (r : Reader)
    (hr : r.read_index < rb.data.length) :
    (Reader.advance rb r).read_index < rb.data.length := by
  unfold Reader.advance
  split
  · show 0 < rb.data.length
    omega
  · show r.read_index + 1 < rb.data.length
    rename_i h
    omega

lemma read_index_lt {T : Type} [Inhabited T] (rb : RingBuf T) (r : Reader)
    (hr : r.read_index < rb.data.length) :
    (Reader.read rb r).2.read_index < rb.data.length := by
  by_cases h1 : wrapAdd (rb.data.getD r.read_index default).lap_count 1 =
    r.lap_count
  · rw [read_empty_of h1]
    exact hr
  · by_cases h2 : (rb.data.getD r.read_index default).lap_count = r.lap_count
    · rw [read_ok_of h1 h2]
      exact advance_index_lt rb r hr
    · rw [read_dropout_of h1 h2]
      exact advance_index_lt rb
        ⟨r.read_index, (rb.data.getD r.read_index default).lap_count⟩ hr

lemma skip_index_lt {T : Type} (rb : RingBuf T) (r : Reader)
    (hw : rb.write_index < rb.data.length) :
    (Reader.skip_ahead rb r).read_index < rb.data.length := by
  show (if rb.write_index = 0 then rb.data.length else rb.write_index) - 1 <
    rb.data.length
  split <;> omega

lemma write_inv {T : Type} [Inhabited T] (rb : RingBuf T) (w : Writer)
    (v : T) (hw : rb.write_index < rb.data.length) :
    (Writer.write rb w v).1.data.length = rb.data.length
    ∧ (Writer.write rb w v).1.write_index < rb.data.length := by
  obtain ⟨hd, hwi, -⟩ := write_state rb w v
  constructor
  · rw [hd, List.length_set]
  · rw [hwi]
    split <;> omega

lemma step_inv {T : Type} [Inhabited T] (cap : Nat) (s : Sys T) (op : Op T)
    (h : SysInv cap s) : SysInv cap (Sys.step s op) := by
  obtain ⟨hlen, hwi, hrd⟩ := h
  cases op with
  | write v =>
    have hw0 : s.buf.write_index < s.buf.data.length := by omega
    obtain ⟨hl, hlt⟩ := write_inv s.buf s.writer v hw0
    refine ⟨?_, ?_, ?_⟩
    · show (Writer.write s.buf s.writer v).1.data.length = cap
      omega
    · show (Writer.write s.buf s.writer v).1.write_index < cap
      omega
    · show ∀ r ∈ s.readers, r.read_index < cap
      exact hrd
  | read i =>
    cases hg : s.readers.get? i with
    | none =>
      simp only [Sys.step, hg]
      exact ⟨hlen, hwi, hrd⟩
    | some r =>
      simp only [Sys.step, hg]
      refine ⟨hlen, hwi, ?_⟩
      intro r2 hr2
      rcases List.mem_or_eq_of_mem_set hr2 with hmem | heq
      · exact hrd r2 hmem
      · subst heq
        have hrlt : r.read_index < s.buf.data.length := by
          have := hrd r (List.get?_mem hg)
          omega
        have := read_index_lt s.buf r hrlt
        omega
  | skip i =>
    cases hg : s.readers.get? i with
    | none =>
      simp only [Sys.step, hg]
      exact ⟨hlen, hwi, hrd⟩
    | some r =>
      simp only [Sys.step, hg]
      refine ⟨hlen, hwi, ?_⟩
      intro r2 hr2
      rcases List.mem_or_eq_of_mem_set hr2 with hmem | heq
      · exact hrd r2 hmem
      · subst heq
        have hw0 : s.buf.write_index < s.buf.data.length := by omega
        have := skip_index_lt s.buf r hw0
        omega
  | clone i =>
    cases hg : s.readers.get? i with
    | none =>
      simp only [Sys.step, hg]
      exact ⟨hlen, hwi, hrd⟩
    | some r =>
      simp only [Sys.step, hg]
      refine ⟨hlen, hwi, ?_⟩
      intro r2 hr2
      rcases List.mem_append.mp hr2 with hmem | hmem
      · exact hrd r2 hmem
      · have heq : r2 = Reader.clone r := by simpa using hmem
        subst heq
        show r.read_index < cap
        exact hrd r (List.get?_mem hg)

lemma exec_inv {T : Type} [Inhabited T] (cap : Nat) (ops : List (Op T)) :
    ∀ s : Sys T, SysInv cap s → SysInv cap (Sys.exec s ops) := by
  induction ops with
  | nil =>
    intro s h
    exact h
  | cons op ops ih =>
    intro s h
    exact ih (Sys.step s op) (step_inv cap s op h)

/-- C9: from a fresh buffer of any capacity ≥ 2, every finite sequence of
write, read, skip-ahead and clone operations keeps the shared write cursor
and every reader's private `read_index` inside `[0, capacity)`. -/
theorem cursor_bounds (T : Type) [Inhabited T] (capacity : Nat)
    (h2 : 2 ≤ capacity) (rb : RingBuf T) (rd : Reader) (w : Writer)
    (hc : ring_buffer T capacity = some (rb, rd, w)) (ops : List (Op T)) :
    (Sys.exec ⟨rb, w, [rd]⟩ ops).buf.write_index < capacity
    ∧ ∀ r ∈ (Sys.exec ⟨rb, w, [rd]⟩ ops).readers,
        r.read_index < capacity := by
  rw [(ring_buffer_spec T capacity).2 h2] at hc
  simp only [Option.some.injEq, Prod.mk.injEq] at hc
  obtain ⟨hb, hrd, hw⟩ := hc
  subst hb hrd hw
  have h0 : SysInv capacity
      (⟨⟨List.replicate capacity ⟨0, 0, default⟩, 0⟩, ⟨1⟩, [⟨0, 1⟩]⟩ :
        Sys T) := by
    refine ⟨by simp, by show (0 : Nat) < capacity; omega, ?_⟩
    intro r hr
    have : r = (⟨0, 1⟩ : Reader) := by simpa using hr
    subst this
    show 0 < capacity
    omega
  have := exec_inv capacity ops _ h0
  exact ⟨this.2.1, this.2.2⟩

/-- Witness for `cursor_bounds`: capacity 2 with a write, a wrapped-around
read pair, a skip-ahead and a clone. -/
theorem cursor_bounds_witness :
    2 ≤ 2
    ∧ ring_buffer Nat 2 =
        some (⟨List.replicate 2 ⟨0, 0, default⟩, 0⟩, ⟨0, 1⟩, ⟨1⟩)
    ∧ ((Sys.exec ⟨⟨List.replicate 2 ⟨0, 0, default⟩, 0⟩, ⟨1⟩, [⟨0, 1⟩]⟩
          [Op.write 5, Op.write 6, Op.read 0, Op.read 0, Op.skip 0,
            Op.clone 0, Op.read 1]).buf.write_index < 2
      ∧ ∀ r ∈ (Sys.exec ⟨⟨List.replicate 2 ⟨0, 0, default⟩, 0⟩, ⟨1⟩,
            [⟨0, 1⟩]⟩
          [Op.write 5, Op.write 6, Op.read 0, Op.read 0, Op.skip 0,
            Op.clone 0, Op.read 1]).readers, r.read_index < 2) :=
  ⟨by decide, by decide,
    cursor_bounds Nat 2 (by decide)
      ⟨List.replicate 2 ⟨0, 0, default⟩, 0⟩ ⟨0, 1⟩ ⟨1⟩ (by decide)
      [Op.write 5, Op.write 6, Op.read 0, Op.read 0, Op.skip 0,
        Op.clone 0, Op.read 1]⟩

end Spmcq
